import Mathlib

/-!
Verification development for the populpy repository.

We give a shallow embedding of the three core components described by the
specification and proved about below:

* `SearchManager` (src/models/search.py): the persisted search-history store
  (`addSearch`, `getSearchById`, `deleteSearch`, `ensureJsonSerializable`).
* `SearchService.getAllResults` (src/services/search_service.py): the
  multi-backend search orchestrator.
* `getTrendsDataWithRetry` (src/ui/streamlit_app.py): the retrying
  trends-client acquisition loop, embedded as an event-trace generator so
  that waiting and attempt counts are observable.

Python values are modelled by the inductive `PyVal`; machine-level details
(SQLAlchemy sessions, HTTP) are abstracted into explicit success/failure
parameters exactly where the source code branches on them.
-/

/-- Model of the Python values that flow through the store: scalars,
lists, string-keyed dicts, and opaque non-JSON-serializable objects
carrying their `str()` representation. -/
inductive PyVal where
  | none : PyVal
  | bool (b : Bool) : PyVal
  | int (n : Int) : PyVal
  | str (s : String) : PyVal
  | list (xs : List PyVal) : PyVal
  | dict (xs : List (String × PyVal)) : PyVal
  | obj (rep : String) : PyVal
deriving Repr

mutual

/-- Whether `json.dumps` succeeds on a value (it fails exactly on opaque
objects, at any depth): mirrors the `try: json.dumps(data)` test in
`SearchManager._ensure_json_serializable`. -/
def serializable : PyVal → Bool
  | PyVal.none => true
  | PyVal.bool _ => true
  | PyVal.int _ => true
  | PyVal.str _ => true
  | PyVal.obj _ => false
  | PyVal.list xs => serializableList xs
  | PyVal.dict xs => serializableDict xs

def serializableList : List PyVal → Bool
  | [] => true
  | x :: xs => serializable x && serializableList xs

def serializableDict : List (String × PyVal) → Bool
  | [] => true
  | (_, v) :: xs => serializable v && serializableDict xs

end

/-- The single-quote character used by Python `repr` of strings. -/
def quoteChar : Char := Char.ofNat 39

def pyQuote (s : String) : String :=
  String.mk (quoteChar :: (s.data ++ [quoteChar]))

mutual

/-- Model of Python `repr`, used for elements nested inside containers. -/
def pyRepr : PyVal → String
  | PyVal.none => "None"
  | PyVal.bool b => if b then "True" else "False"
  | PyVal.int n => toString n
  | PyVal.str s => pyQuote s
  | PyVal.obj rep => rep
  | PyVal.list xs => "[" ++ pyReprList xs ++ "]"
  | PyVal.dict xs => "\x7b" ++ pyReprDict xs ++ "\x7d"

def pyReprList : List PyVal → String
  | [] => ""
  | [x] => pyRepr x
  | x :: y :: xs => pyRepr x ++ ", " ++ pyReprList (y :: xs)

def pyReprDict : List (String × PyVal) → String
  | [] => ""
  | [(k, v)] => pyQuote k ++ ": " ++ pyRepr v
  | (k, v) :: y :: xs => pyQuote k ++ ": " ++ pyRepr v ++ ", " ++ pyReprDict (y :: xs)

end

/-- Model of Python `str(data)`: like `repr` except on strings, which print
their raw contents. It is total, so the inner `except` of the fallback in
`_ensure_json_serializable` is unreachable in the model. -/
def pyStr : PyVal → String
  | PyVal.str s => s
  | v => pyRepr v

/-- Embedding of `SearchManager._ensure_json_serializable`:
`None` becomes `{}`; serializable data is returned unchanged; anything else
is replaced by its best-effort string representation. -/
def ensureJsonSerializable (data : PyVal) : PyVal :=
  match data with
  | PyVal.none => PyVal.dict []
  | d => if serializable d then d else PyVal.str (pyStr d)

/-- Lookup of a string key in a Python dict body (first match, as in
CPython where keys are unique). -/
def dictGet (xs : List (String × PyVal)) (k : String) : Option PyVal :=
  (xs.find? (fun kv => kv.1 == k)).map (fun kv => kv.2)

/-- Whether a value is a dict containing key `k` (Python `k in d`). -/
def dictHasKey (v : PyVal) (k : String) : Bool :=
  match v with
  | PyVal.dict xs => xs.any (fun kv => kv.1 == k)
  | _ => false

/-- Embedding of the `Search` SQLAlchemy row of src/models/search.py.
`id` and `timestamp` are `Option` because a freshly constructed object has
neither until the insert commits. -/
structure Search where
  id : Option Nat
  query : String
  country : PyVal
  timestamp : Option Nat
  results : PyVal
  settings : PyVal
deriving Repr

/-- The persisted state behind a `SearchManager`: the table rows, the next
auto-increment primary key, and a clock supplying `datetime.now()` stamps. -/
structure Store where
  rows : List Search
  nextId : Nat
  clock : Nat
deriving Repr

/-- The store that a fresh database starts from (SQLite ids start at 1). -/
def emptyStore : Store := ⟨[], 1, 0⟩

/-- Well-formedness of a store: every row has an assigned id below the
auto-increment counter, and ids are pairwise distinct. -/
def Store.WF (st : Store) : Prop :=
  (∀ r ∈ st.rows, ∃ m, r.id = some m ∧ m < st.nextId) ∧
  st.rows.Pairwise (fun a b => a.id ≠ b.id)

/-- Embedding of the `country` defaulting at the top of
`SearchManager.add_search`: `if country is None and settings and
'country' in settings: country = settings['country']`. -/
def effCountry (country settings : PyVal) : PyVal :=
  match country with
  | PyVal.none =>
    match settings with
    | PyVal.dict xs =>
      if xs.isEmpty then PyVal.none
      else
        match dictGet xs "country" with
        | some v => v
        | Option.none => PyVal.none
    | _ => PyVal.none
  | c => c

/-- Embedding of `SearchManager.add_search`. `commitOk` stands for whether
`session.commit()` succeeds; on failure the source rolls back and returns a
minimal `Search(query=query, country=country)` with no id, no timestamp and
null results/settings. On success the committed row (with the freshly
assigned id and timestamp) is appended and returned as a detached copy. -/
def addSearch (st : Store) (commitOk : Bool) (query : String)
    (country results settings : PyVal) : Store × Search :=
  let country := effCountry country settings
  let serializedResults := ensureJsonSerializable results
  let serializedSettings := ensureJsonSerializable settings
  if commitOk then
    let row : Search :=
      ⟨some st.nextId, query, country, some st.clock, serializedResults, serializedSettings⟩
    (⟨st.rows ++ [row], st.nextId + 1, st.clock + 1⟩, row)
  else
    (st, ⟨Option.none, query, country, Option.none, PyVal.none, PyVal.none⟩)

/-- The `Union[int, str]` id argument accepted by `get_search_by_id` and
`delete_search`. -/
inductive IdArg where
  | int (n : Int) : IdArg
  | str (s : String) : IdArg
deriving Repr, DecidableEq

/-- Python `int(search_id)`: identity on ints, decimal parse on strings,
`none` when the parse raises `ValueError`. -/
def idToInt : IdArg → Option Int
  | IdArg.int n => some n
  | IdArg.str s => s.toInt?

/-- Whether a row's primary key equals the requested id. -/
def rowHasId (n : Int) (r : Search) : Bool :=
  match r.id with
  | some m => (m : Int) == n
  | Option.none => false

/-- Embedding of `SearchManager.get_search_by_id`: parse the id (invalid ids
are caught and yield `None`), look the row up, return a detached clone. -/
def getSearchById (st : Store) (sid : IdArg) : Option Search :=
  match idToInt sid with
  | Option.none => Option.none
  | some n => st.rows.find? (rowHasId n)

/-- Remove the first row carrying id `n` (the row `session.delete` targets). -/
def eraseFirst (rows : List Search) (n : Int) : List Search :=
  match rows with
  | [] => []
  | r :: rs => if rowHasId n r then rs else r :: eraseFirst rs n

/-- Embedding of `SearchManager.delete_search`: invalid ids and missing rows
return `false` without raising; an existing row is deleted and committed
(`commitOk` stands for the commit outcome; a failed commit is caught, rolled
back, and reported as `false`). -/
def deleteSearch (st : Store) (commitOk : Bool) (sid : IdArg) : Store × Bool :=
  match idToInt sid with
  | Option.none => (st, false)
  | some n =>
    match st.rows.find? (rowHasId n) with
    | some _ =>
      if commitOk then (⟨eraseFirst st.rows n, st.nextId, st.clock⟩, true)
      else (st, false)
    | Option.none => (st, false)

/-- A flat provider result `{title, link}` as produced by the
`SearchResult.to_dict` of src/services/search_providers.py. -/
structure SR where
  title : String
  link : String
deriving Repr, DecidableEq

/-- The kinds of exception the orchestrator's `except` clauses distinguish
when a provider call raises: `requests.RequestException`, `SearchAPIError`,
and the general `Exception` fallback. -/
inductive ExcKind where
  | request : ExcKind
  | apiError : ExcKind
  | other : ExcKind
deriving Repr, DecidableEq

/-- Outcome of one opaque provider call (`provider.search(query)` together
with the provider's construction): either an ordered result list or a
raised exception. -/
inductive Outcome where
  | ok (rs : List SR) : Outcome
  | raises (k : ExcKind) : Outcome
deriving Repr, DecidableEq

/-- The environment of one `get_all_results` run: what each backend's
provider call would do for the query of this invocation. -/
def Behavior : Type := String → Outcome

/-- The `config` dictionary handed to `SearchService.get_all_results`:
the three keys it reads, each possibly absent (`config.get` returns
`None`). -/
structure Config where
  api_key : Option String
  cx : Option String
  bing_api_key : Option String
deriving Repr, DecidableEq

/-- Python falsiness of `config.get(key)`: `None` or the empty string
(`if not api_key or not cx: ...`). -/
def blank : Option String → Bool
  | Option.none => true
  | some s => s == ""

/-- Process one name of the `providers` list: the body of the `for` loop of
`SearchService.get_all_results`, including its `except` clauses, returning
the key/value pair stored into `results`. A missing credential raises
`ConfigurationError`, caught below into an empty list; every exception kind
a provider call can raise is likewise caught into an empty list; an unknown
name stores an empty list directly. -/
def runProvider (cfg : Config) (beh : Behavior) (provider : String) :
    String × List SR :=
  if provider == "Google" then
    if blank cfg.api_key || blank cfg.cx then (provider, [])
    else
      match beh provider with
      | Outcome.ok rs => ("Google", rs)
      | Outcome.raises _ => (provider, [])
  else if provider == "DuckDuckGo" then
    match beh provider with
    | Outcome.ok rs => ("DuckDuckGo", rs)
    | Outcome.raises _ => (provider, [])
  else if provider == "Bing" then
    if blank cfg.bing_api_key then (provider, [])
    else
      match beh provider with
      | Outcome.ok rs => ("Bing", rs)
      | Outcome.raises _ => (provider, [])
  else (provider, [])

/-- Python dict assignment `m[k] = v`: overwrite in place if the key exists,
else append, preserving insertion order. -/
def dictSet (m : List (String × List SR)) (k : String) (v : List SR) :
    List (String × List SR) :=
  match m with
  | [] => [(k, v)]
  | (k0, v0) :: rest =>
    if k0 == k then (k0, v) :: rest else (k0, v0) :: dictSet rest k v

/-- Python dict lookup `m.get(k)` on the result mapping. -/
def dictGetSR : List (String × List SR) → String → Option (List SR)
  | [], _ => Option.none
  | (k0, v0) :: rest, k => if k0 == k then some v0 else dictGetSR rest k

/-- The key set of the result mapping. -/
def dictKeys (m : List (String × List SR)) : List String :=
  m.map (fun kv => kv.1)

/-- One iteration of the `for provider in providers` loop: run the branch
for `p` and store its pair into the accumulated `results` dict. -/
def stepProvider (cfg : Config) (beh : Behavior)
    (acc : List (String × List SR)) (p : String) : List (String × List SR) :=
  let kv := runProvider cfg beh p
  dictSet acc kv.1 kv.2

/-- Embedding of `SearchService.get_all_results`: an empty query raises
`ValueError` before any backend is contacted; otherwise the `for` loop
fills the `results` dict, one `stepProvider` per requested name. -/
def getAllResults (query : String) (providers : List String) (cfg : Config)
    (beh : Behavior) : Except String (List (String × List SR)) :=
  if query == "" then Except.error "Search query cannot be empty"
  else Except.ok (providers.foldl (stepProvider cfg beh) [])

/-- The ways the run of one backend can fail, as the specification lists
them: an unrecognized name, a missing credential for a keyed backend, or a
provider call that raises. -/
def failsFor (cfg : Config) (beh : Behavior) (p : String) : Prop :=
  p ∉ (["Google", "DuckDuckGo", "Bing"] : List String) ∨
  (p = "Google" ∧ (blank cfg.api_key || blank cfg.cx) = true) ∨
  (p = "Bing" ∧ blank cfg.bing_api_key = true) ∨
  (∃ k, beh p = Outcome.raises k)

/-- The configuration fields the branch for backend `p` reads: two configs
agree for `p` when those fields coincide. -/
def relevantCfgEq (p : String) (c1 c2 : Config) : Prop :=
  (p = "Google" → c1.api_key = c2.api_key ∧ c1.cx = c2.cx) ∧
  (p = "Bing" → c1.bing_api_key = c2.bing_api_key)

/-- Observable events of one `get_trends_data_with_retry` run: waiting in
`time.sleep(delay)`, one attempt to build and load a `TrendReq` (with its
success bit), and the `st.warning` report of the last error. -/
inductive TEvent where
  | sleep (d : Nat) : TEvent
  | call (attempt : Nat) (ok : Bool) : TEvent
  | warn : TEvent
deriving Repr, DecidableEq

/-- A trend-service session handle (opaque). -/
def Handle : Type := Nat

/-- The trend service as seen by one run: what attempt `k` (0-indexed, as
Python's `range`) would produce — a handle, or `none` when `TrendReq` or
`build_payload` raises. -/
def TrendSvc : Type := Nat → Option Nat

/-- The loop of `get_trends_data_with_retry`, emitting its event trace.
Each iteration sleeps `delay`, attempts the service, and returns the handle
immediately on success; on failure it warns if this was the last attempt
(`attempt == retries - 1`), sleeps `delay` again, and continues. -/
def getTrendsAux (svc : TrendSvc) (delay retries : Nat) :
    Nat → Nat → List TEvent × Option Nat
  | _, 0 => ([], Option.none)
  | attempt, remaining + 1 =>
    match svc attempt with
    | some h => ([TEvent.sleep delay, TEvent.call attempt true], some h)
    | Option.none =>
      let warnEvs : List TEvent :=
        if attempt == retries - 1 then [TEvent.warn] else []
      let rest := getTrendsAux svc delay retries (attempt + 1) remaining
      ([TEvent.sleep delay, TEvent.call attempt false] ++ warnEvs ++
        [TEvent.sleep delay] ++ rest.1, rest.2)

/-- Embedding of `get_trends_data_with_retry(query, retries=2, delay=2)`
from src/ui/streamlit_app.py: run the loop over `range(retries)` starting
at attempt 0; falling off the loop returns `None`. -/
def getTrendsDataWithRetry (svc : TrendSvc) (retries delay : Nat) :
    List TEvent × Option Nat :=
  getTrendsAux svc delay retries 0 retries

/-- Number of service attempts recorded in a trace. -/
def numCalls : List TEvent → Nat
  | [] => 0
  | TEvent.call _ _ :: es => numCalls es + 1
  | _ :: es => numCalls es

/-- Total time spent sleeping over a whole trace. -/
def totalWait : List TEvent → Nat
  | [] => 0
  | TEvent.sleep d :: es => d + totalWait es
  | _ :: es => totalWait es

/-- Time spent sleeping before the first service attempt of a trace. -/
def waitBeforeFirstCall : List TEvent → Nat
  | [] => 0
  | TEvent.sleep d :: es => d + waitBeforeFirstCall es
  | TEvent.call _ _ :: _ => 0
  | TEvent.warn :: es => waitBeforeFirstCall es

/-- Whether the trace reports an error via `st.warning`. -/
def hasWarn (es : List TEvent) : Bool :=
  es.any (fun e => match e with | TEvent.warn => true | _ => false)

/-- A settings snapshot as the streamlit UI passes it to `add_search`:
it contains the three credential fields of the denylist alongside ordinary
settings. -/
def credSettings : PyVal := PyVal.dict
  [("google_search_api_key", PyVal.str "SECRET-KEY"),
   ("custom_search_engine_id", PyVal.str "CX-1"),
   ("bing_api_key", PyVal.str "BING-SECRET"),
   ("country", PyVal.str "ES")]

/-- A store holding one committed row with id 1. -/
def row1 : Search :=
  ⟨some 1, "q", PyVal.str "ES", some 0, PyVal.dict [], PyVal.dict []⟩

def storeOne : Store := ⟨[row1], 2, 1⟩

/-- A trend service that fails on attempts 0 and 1 and succeeds from
attempt 2 on. -/
def svcFailTwice : TrendSvc := fun k => if k < 2 then Option.none else some 1

/-- A trend service that fails on every attempt. -/
def svcAlwaysFail : TrendSvc := fun _ => Option.none

/-- A configuration carrying every credential. -/
def cfgFull : Config := ⟨some "AKEY", some "CX1", some "BKEY"⟩

/-- A configuration missing the Bing key. -/
def cfgNoBing : Config := ⟨some "AKEY", some "CX1", Option.none⟩

/-- A behavior where every provider call succeeds with one result. -/
def behOk : Behavior := fun _ => Outcome.ok [⟨"t", "l"⟩]

/-- A behavior where the Google call raises a network error and the others
succeed. -/
def behGoogleRaises : Behavior := fun p =>
  if p == "Google" then Outcome.raises ExcKind.request else Outcome.ok [⟨"t", "l"⟩]

theorem runProvider_fst (cfg : Config) (beh : Behavior) (p : String) :
    (runProvider cfg beh p).1 = p := by
  unfold runProvider
  split_ifs with h1 h2 h3 h4 h5
  · rfl
  · simp only [beq_iff_eq] at h1
    subst h1
    cases beh "Google" <;> rfl
  · simp only [beq_iff_eq] at h3
    subst h3
    cases beh "DuckDuckGo" <;> rfl
  · rfl
  · simp only [beq_iff_eq] at h4
    subst h4
    cases beh "Bing" <;> rfl
  · rfl

theorem dictGetSR_dictSet (m : List (String × List SR)) (k : String)
    (v : List SR) (k' : String) :
    dictGetSR (dictSet m k v) k' = if k' = k then some v else dictGetSR m k' := by
  induction m with
  | nil =>
    by_cases h : k' = k
    · subst h
      simp [dictSet, dictGetSR]
    · simp [dictSet, dictGetSR, h, Ne.symm h]
  | cons kv0 rest ih =>
    obtain ⟨k0, v0⟩ := kv0
    simp only [dictSet]
    by_cases h0 : k0 = k
    · subst h0
      by_cases h : k' = k0
      · subst h
        simp [dictGetSR]
      · have h2 : ¬ k0 = k' := fun hh => h (Eq.symm hh)
        simp [dictGetSR, h, h2]
    · by_cases h : k0 = k'
      · subst h
        simp [dictGetSR, h0, ih]
      · simp [dictGetSR, h0, ih, h]

theorem dictGetSR_isSome_iff (m : List (String × List SR)) (name : String) :
    (dictGetSR m name).isSome = true ↔ name ∈ dictKeys m := by
  induction m with
  | nil => simp [dictGetSR, dictKeys]
  | cons kv rest ih =>
    obtain ⟨k0, v0⟩ := kv
    by_cases h : k0 = name
    · subst h
      simp [dictGetSR, dictKeys]
    · simp [dictGetSR, dictKeys, h, Ne.symm h, ih]

theorem getAllResults_lookup (cfg : Config) (beh : Behavior) (ps : List String)
    (acc : List (String × List SR)) (name : String) :
    dictGetSR (ps.foldl (stepProvider cfg beh) acc) name =
      if name ∈ ps then some (runProvider cfg beh name).2
      else dictGetSR acc name := by
  induction ps generalizing acc with
  | nil => simp
  | cons p ps ih =>
    simp only [List.foldl_cons, ih]
    by_cases hmem : name ∈ ps
    · simp [hmem]
    · by_cases hp : name = p
      · subst hp
        simp [hmem, stepProvider, runProvider_fst, dictGetSR_dictSet]
      · simp [hmem, hp, stepProvider, runProvider_fst, dictGetSR_dictSet]

theorem runProvider_fails (cfg : Config) (beh : Behavior) (p : String)
    (h : failsFor cfg beh p) : (runProvider cfg beh p).2 = [] := by
  unfold runProvider
  rcases h with hunk | ⟨hp, hcred⟩ | ⟨hp, hcred⟩ | ⟨k, hraise⟩
  · simp only [List.mem_cons, List.mem_singleton, not_or] at hunk
    obtain ⟨hg, hd, hb⟩ := hunk
    simp [hg, hd, hb]
  · subst hp
    simp [hcred]
  · subst hp
    simp [hcred]
  · split_ifs with h1 h2 h3 h4 h5 <;> simp [hraise]

theorem runProvider_congr (c1 c2 : Config) (b1 b2 : Behavior) (p : String)
    (hcfg : relevantCfgEq p c1 c2) (hbeh : b1 p = b2 p) :
    runProvider c1 b1 p = runProvider c2 b2 p := by
  unfold runProvider
  by_cases hg : p = "Google"
  · subst hg
    obtain ⟨ha, hc⟩ := hcfg.1 rfl
    simp [ha, hc, hbeh]
  · by_cases hd : p = "DuckDuckGo"
    · subst hd
      simp [hbeh]
    · by_cases hb : p = "Bing"
      · subst hb
        simp [hcfg.2 rfl, hbeh]
      · simp [hg, hd, hb]

theorem numCalls_append (xs ys : List TEvent) :
    numCalls (xs ++ ys) = numCalls xs + numCalls ys := by
  induction xs with
  | nil => simp [numCalls]
  | cons e es ih =>
    cases e <;> simp [numCalls, ih] <;> omega

theorem totalWait_append (xs ys : List TEvent) :
    totalWait (xs ++ ys) = totalWait xs + totalWait ys := by
  induction xs with
  | nil => simp [totalWait]
  | cons e es ih =>
    cases e <;> simp [totalWait, ih] <;> omega

theorem hasWarn_append (xs ys : List TEvent) :
    hasWarn (xs ++ ys) = (hasWarn xs || hasWarn ys) := by
  simp [hasWarn]

theorem getTrendsAux_allFail (svc : TrendSvc) (delay retries : Nat)
    (hf : ∀ k, svc k = Option.none) (rem : Nat) :
    ∀ a, (getTrendsAux svc delay retries a rem).2 = Option.none ∧
      numCalls (getTrendsAux svc delay retries a rem).1 = rem := by
  induction rem with
  | zero => intro a; simp [getTrendsAux, numCalls]
  | succ r ih =>
    intro a
    obtain ⟨ih1, ih2⟩ := ih (a + 1)
    simp only [getTrendsAux, hf a]
    constructor
    · exact ih1
    · by_cases hw : (a == retries - 1) = true <;>
        simp [hw, numCalls_append, numCalls, ih2]

theorem getTrendsAux_allFail_warn (svc : TrendSvc) (delay retries : Nat)
    (hf : ∀ k, svc k = Option.none) :
    ∀ rem a, a + rem = retries → 1 ≤ rem →
      hasWarn (getTrendsAux svc delay retries a rem).1 = true := by
  intro rem
  induction rem with
  | zero => intro a _ h2; omega
  | succ r ih =>
    intro a hsum _
    simp only [getTrendsAux, hf a]
    rcases Nat.eq_zero_or_pos r with hr | hr
    · subst hr
      have ha : (a == retries - 1) = true := by
        simp only [beq_iff_eq]
        omega
      simp [ha, hasWarn_append, hasWarn]
    · have hrest := ih (a + 1) (by omega) (by omega)
      unfold hasWarn at hrest ⊢
      by_cases hw : (a == retries - 1) = true <;>
        simp [hw, hrest]

theorem getTrendsAux_success (svc : TrendSvc) (delay retries : Nat) :
    ∀ m rem a h, m < rem → (∀ j, j < m → svc (a + j) = Option.none) →
      svc (a + m) = some h →
      (getTrendsAux svc delay retries a rem).2 = some h ∧
      numCalls (getTrendsAux svc delay retries a rem).1 = m + 1 ∧
      totalWait (getTrendsAux svc delay retries a rem).1 = (2 * m + 1) * delay ∧
      (getTrendsAux svc delay retries a rem).1.head? = some (TEvent.sleep delay) ∧
      (getTrendsAux svc delay retries a rem).1.getLast? =
        some (TEvent.call (a + m) true) := by
  intro m
  induction m with
  | zero =>
    intro rem a h hlt _ hsucc
    obtain ⟨r, rfl⟩ : ∃ r, rem = r + 1 := ⟨rem - 1, by omega⟩
    simp only [Nat.add_zero] at hsucc
    simp [getTrendsAux, hsucc, numCalls, totalWait]
  | succ m ih =>
    intro rem a h hlt hfail hsucc
    obtain ⟨r, rfl⟩ : ∃ r, rem = r + 1 := ⟨rem - 1, by omega⟩
    have h0 : svc a = Option.none := by
      have := hfail 0 (by omega)
      simpa using this
    have heq : a + 1 + m = a + (m + 1) := by omega
    have ihr := ih r (a + 1) h (by omega)
      (fun j hj => by
        have := hfail (j + 1) (by omega)
        have hj2 : a + 1 + j = a + (j + 1) := by omega
        rw [hj2]
        exact this)
      (by rw [heq]; exact hsucc)
    obtain ⟨i1, i2, i3, i4, i5⟩ := ihr
    rw [heq] at i5
    have hne : (getTrendsAux svc delay retries (a + 1) r).1 ≠ [] := by
      intro hnil
      rw [hnil] at i4
      simp at i4
    simp only [getTrendsAux, h0]
    refine ⟨i1, ?_, ?_, ?_, ?_⟩
    · by_cases hw : (a == retries - 1) = true <;>
        simp [hw, numCalls_append, numCalls, i2]
    · by_cases hw : (a == retries - 1) = true <;>
        · simp [hw, totalWait_append, totalWait, i3]
          ring
    · rfl
    · have hstep : (TEvent.sleep delay ::
          (getTrendsAux svc delay retries (a + 1) r).1).getLast? =
          some (TEvent.call (a + (m + 1)) true) := by
        have hc : TEvent.sleep delay :: (getTrendsAux svc delay retries (a + 1) r).1 =
            [TEvent.sleep delay] ++ (getTrendsAux svc delay retries (a + 1) r).1 := rfl
        rw [hc, List.getLast?_append_of_ne_nil _ hne, i5]
      by_cases hw : (a == retries - 1) = true <;>
        simp [hw, hstep]

theorem ensureJsonSerializable_ne_none (v : PyVal) :
    ensureJsonSerializable v ≠ PyVal.none := by
  cases v <;> simp [ensureJsonSerializable] <;> split_ifs <;> simp

theorem rowHasId_id_eq {n : Int} {a b : Search}
    (ha : rowHasId n a = true) (hb : rowHasId n b = true) : a.id = b.id := by
  unfold rowHasId at ha hb
  cases haid : a.id with
  | none => rw [haid] at ha; simp at ha
  | some m1 =>
    cases hbid : b.id with
    | none => rw [hbid] at hb; simp at hb
    | some m2 =>
      rw [haid] at ha
      rw [hbid] at hb
      simp only [beq_iff_eq] at ha hb
      have hm : m1 = m2 := by omega
      rw [hm]

theorem find?_eraseFirst_pairwise (n : Int) :
    ∀ rows : List Search, rows.Pairwise (fun a b => a.id ≠ b.id) →
      (eraseFirst rows n).find? (rowHasId n) = Option.none := by
  intro rows
  induction rows with
  | nil => intro _; rfl
  | cons r rs ih =>
    intro hpw
    rw [List.pairwise_cons] at hpw
    obtain ⟨hr, hpw2⟩ := hpw
    by_cases hmatch : rowHasId n r = true
    · simp only [eraseFirst, hmatch, if_true]
      rw [List.find?_eq_none]
      intro b hb hbmatch
      exact hr b hb (rowHasId_id_eq hmatch hbmatch)
    · simp only [eraseFirst, hmatch, if_false, Bool.false_eq_true]
      rw [List.find?_cons_of_neg _ hmatch]
      exact ih hpw2

/-- Claim C2: for every query and every list of requested backend names,
`get_all_results` returns a mapping whose key set is exactly the set of
requested names, and an unrecognized name, a missing credential, or any
per-backend failure is mapped to an empty result sequence under that name,
never to an absent key. -/
theorem getAllResults_keyset_complete (q : String) (ps : List String)
    (cfg : Config) (beh : Behavior) (hq : q ≠ "") :
    ∃ m, getAllResults q ps cfg beh = Except.ok m ∧
      (∀ name, name ∈ dictKeys m ↔ name ∈ ps) ∧
      (∀ name ∈ ps, failsFor cfg beh name → dictGetSR m name = some []) := by
  have hq2 : (q == "") = false := by simp [hq]
  refine ⟨ps.foldl (stepProvider cfg beh) [], ?_, ?_, ?_⟩
  · simp [getAllResults, hq2]
  · intro name
    rw [← dictGetSR_isSome_iff, getAllResults_lookup]
    by_cases h : name ∈ ps <;> simp [h, dictGetSR]
  · intro name hmem hfails
    rw [getAllResults_lookup]
    simp [hmem, runProvider_fails cfg beh name hfails]

theorem getAllResults_keyset_complete_witness :
    ∃ m, getAllResults "weather" ["Google", "Bing", "Foo"] cfgNoBing behOk =
        Except.ok m ∧
      (∀ name, name ∈ dictKeys m ↔ name ∈ ["Google", "Bing", "Foo"]) ∧
      (∀ name ∈ ["Google", "Bing", "Foo"],
        failsFor cfgNoBing behOk name → dictGetSR m name = some []) :=
  getAllResults_keyset_complete "weather" ["Google", "Bing", "Foo"]
    cfgNoBing behOk (by decide)

/-- Claim C3: a failure of backend A (configuration, network, parse, or any
other exception) never changes the entry returned for a distinct backend B
and never makes `get_all_results` raise: two runs that agree on everything
except backend A produce `ok` results with identical entries at B. -/
theorem getAllResults_fault_isolation (q : String) (ps : List String)
    (A B : String) (cfg1 cfg2 : Config) (beh1 beh2 : Behavior)
    (hq : q ≠ "") (hAB : A ≠ B)
    (hbeh : ∀ p, p ≠ A → beh1 p = beh2 p)
    (hcfg : ∀ p, p ≠ A → relevantCfgEq p cfg1 cfg2) :
    ∃ m1 m2, getAllResults q ps cfg1 beh1 = Except.ok m1 ∧
      getAllResults q ps cfg2 beh2 = Except.ok m2 ∧
      dictGetSR m1 B = dictGetSR m2 B := by
  have hq2 : (q == "") = false := by simp [hq]
  have hBA : B ≠ A := fun h => hAB h.symm
  refine ⟨ps.foldl (stepProvider cfg1 beh1) [],
    ps.foldl (stepProvider cfg2 beh2) [], ?_, ?_, ?_⟩
  · simp [getAllResults, hq2]
  · simp [getAllResults, hq2]
  · rw [getAllResults_lookup, getAllResults_lookup,
      runProvider_congr cfg1 cfg2 beh1 beh2 B (hcfg B hBA) (hbeh B hBA)]

theorem getAllResults_fault_isolation_witness :
    ∃ m1 m2,
      getAllResults "weather" ["Google", "DuckDuckGo"] cfgFull behGoogleRaises =
        Except.ok m1 ∧
      getAllResults "weather" ["Google", "DuckDuckGo"] cfgFull behOk =
        Except.ok m2 ∧
      dictGetSR m1 "DuckDuckGo" = dictGetSR m2 "DuckDuckGo" :=
  getAllResults_fault_isolation "weather" ["Google", "DuckDuckGo"]
    "Google" "DuckDuckGo" cfgFull cfgFull behGoogleRaises behOk
    (by decide) (by decide)
    (fun p hp => by simp [behGoogleRaises, behOk, hp])
    (fun p _ => ⟨fun _ => ⟨rfl, rfl⟩, fun _ => rfl⟩)

/-- Claim C7: the empty query is rejected with a `ValueError` before any
backend is contacted, and this is the only hard failure of the entry
point: every non-empty query yields an `ok` mapping. -/
theorem getAllResults_empty_query (q : String) (ps : List String)
    (cfg : Config) (beh : Behavior) :
    (q = "" → getAllResults q ps cfg beh =
      Except.error "Search query cannot be empty") ∧
    (q ≠ "" → ∃ m, getAllResults q ps cfg beh = Except.ok m) := by
  constructor
  · intro h
    subst h
    rfl
  · intro h
    have hq2 : (q == "") = false := by simp [h]
    exact ⟨ps.foldl (stepProvider cfg beh) [], by simp [getAllResults, hq2]⟩

theorem getAllResults_empty_query_witness :
    getAllResults "" ["Google"] cfgFull behOk =
      Except.error "Search query cannot be empty" ∧
    ∃ m, getAllResults "weather" ["Google"] cfgFull behOk = Except.ok m :=
  ⟨(getAllResults_empty_query "" ["Google"] cfgFull behOk).1 rfl,
   (getAllResults_empty_query "weather" ["Google"] cfgFull behOk).2 (by decide)⟩

/-- Claim C4 counterexample: with `retries=3`, `delay=2` and a service that
fails twice then succeeds, the loop does wait before the first attempt
(the claim says the delay occurs only between attempts, never before the
first): the wait accumulated before the first service call is 2, not 0. -/
theorem getTrends_waits_before_first_attempt :
    ¬ (waitBeforeFirstCall (getTrendsDataWithRetry svcFailTwice 3 2).1 = 0) := by
  decide

/-- Claim C4 (amended): the loop waits `delay` before every attempt,
including the first; on success at 0-indexed attempt k it returns the
handle immediately, with exactly k+1 attempts and exactly (2k+1)*delay of
total waiting (so with retries=3 and a service failing twice then
succeeding, 3 attempts and 5*delay >= 2*delay of waiting), the trace
starting with a wait and ending with the successful call. -/
theorem getTrends_retry_amended (retries delay : Nat) (svc : TrendSvc)
    (k h : Nat) (hk : k < retries)
    (hfail : ∀ j, j < k → svc j = Option.none) (hsucc : svc k = some h) :
    (getTrendsDataWithRetry svc retries delay).2 = some h ∧
    numCalls (getTrendsDataWithRetry svc retries delay).1 = k + 1 ∧
    totalWait (getTrendsDataWithRetry svc retries delay).1 = (2 * k + 1) * delay ∧
    2 * delay ≤ totalWait (getTrendsDataWithRetry svc retries delay).1 + delay ∧
    (getTrendsDataWithRetry svc retries delay).1.head? = some (TEvent.sleep delay) ∧
    (getTrendsDataWithRetry svc retries delay).1.getLast? =
      some (TEvent.call k true) := by
  have hall := getTrendsAux_success svc delay retries k retries 0 h hk
    (fun j hj => by simpa using hfail j hj) (by simpa using hsucc)
  obtain ⟨h1, h2, h3, h4, h5⟩ := hall
  refine ⟨h1, h2, ?_, ?_, h4, by simpa using h5⟩
  · simpa [getTrendsDataWithRetry] using h3
  · have h3r : totalWait (getTrendsDataWithRetry svc retries delay).1 =
        (2 * k + 1) * delay := by simpa [getTrendsDataWithRetry] using h3
    rw [h3r]
    nlinarith

theorem getTrends_retry_amended_witness :
    (getTrendsDataWithRetry svcFailTwice 3 2).2 = some 1 ∧
    numCalls (getTrendsDataWithRetry svcFailTwice 3 2).1 = 2 + 1 ∧
    totalWait (getTrendsDataWithRetry svcFailTwice 3 2).1 = (2 * 2 + 1) * 2 ∧
    2 * 2 ≤ totalWait (getTrendsDataWithRetry svcFailTwice 3 2).1 + 2 ∧
    (getTrendsDataWithRetry svcFailTwice 3 2).1.head? = some (TEvent.sleep 2) ∧
    (getTrendsDataWithRetry svcFailTwice 3 2).1.getLast? =
      some (TEvent.call 2 true) :=
  getTrends_retry_amended 3 2 svcFailTwice 2 1 (by decide)
    (fun j hj => by
      unfold svcFailTwice
      simp [hj])
    rfl

/-- Claim C5: if the trend service fails on every attempt, the loop makes
exactly `retries` attempts, returns `None` rather than letting any
exception escape, and reports the last error via `st.warning`. -/
theorem getTrends_exhaustion (retries delay : Nat) (svc : TrendSvc)
    (hf : ∀ k, svc k = Option.none) :
    (getTrendsDataWithRetry svc retries delay).2 = Option.none ∧
    numCalls (getTrendsDataWithRetry svc retries delay).1 = retries ∧
    (1 ≤ retries → hasWarn (getTrendsDataWithRetry svc retries delay).1 = true) := by
  obtain ⟨h1, h2⟩ := getTrendsAux_allFail svc delay retries hf retries 0
  refine ⟨h1, h2, ?_⟩
  intro hret
  exact getTrendsAux_allFail_warn svc delay retries hf retries 0 (by omega) hret

theorem getTrends_exhaustion_witness :
    (getTrendsDataWithRetry svcAlwaysFail 2 1).2 = Option.none ∧
    numCalls (getTrendsDataWithRetry svcAlwaysFail 2 1).1 = 2 ∧
    hasWarn (getTrendsDataWithRetry svcAlwaysFail 2 1).1 = true :=
  ⟨(getTrends_exhaustion 2 1 svcAlwaysFail (fun _ => rfl)).1,
   (getTrends_exhaustion 2 1 svcAlwaysFail (fun _ => rfl)).2.1,
   (getTrends_exhaustion 2 1 svcAlwaysFail (fun _ => rfl)).2.2 (by decide)⟩

theorem ensureJsonSerializable_not_serializable (v : PyVal)
    (h : serializable v = false) :
    ensureJsonSerializable v = PyVal.str (pyStr v) := by
  cases v <;> simp only [serializable] at h <;>
    first
      | exact Bool.noConfusion h
      | simp [ensureJsonSerializable, serializable, h]

theorem ensureJsonSerializable_serializable (v : PyVal)
    (hne : v ≠ PyVal.none) (h : serializable v = true) :
    ensureJsonSerializable v = v := by
  cases v <;> first
    | exact absurd rfl hne
    | simp [ensureJsonSerializable, h]

/-- Claim C9: when committing the insert fails, `add_search` rolls back
(the store is unchanged), swallows the exception, and returns a minimal
record carrying only the query and the (defaulted) country, with no id, no
timestamp, and null results/settings. -/
theorem addSearch_commit_failure (st : Store) (q : String) (c r s : PyVal) :
    addSearch st false q c r s =
      (st, ⟨Option.none, q, effCountry c s, Option.none,
        PyVal.none, PyVal.none⟩) := rfl

/-- Claim C10: `add_search` normalizes `None` results and settings to the
empty mapping, so the created record's two JSON fields are never null, and
the stored row is the returned record itself. -/
theorem addSearch_none_normalization (st : Store) (q : String) (c r s : PyVal) :
    (r = PyVal.none →
      (addSearch st true q c r s).2.results = PyVal.dict []) ∧
    (s = PyVal.none →
      (addSearch st true q c r s).2.settings = PyVal.dict []) ∧
    (addSearch st true q c r s).2.results ≠ PyVal.none ∧
    (addSearch st true q c r s).2.settings ≠ PyVal.none ∧
    (addSearch st true q c r s).1.rows =
      st.rows ++ [(addSearch st true q c r s).2] := by
  refine ⟨?_, ?_, ?_, ?_, ?_⟩
  · intro h
    subst h
    simp [addSearch, ensureJsonSerializable]
  · intro h
    subst h
    simp [addSearch, ensureJsonSerializable]
  · simpa [addSearch] using ensureJsonSerializable_ne_none r
  · simpa [addSearch] using ensureJsonSerializable_ne_none s
  · simp [addSearch]

theorem addSearch_none_normalization_witness :
    (addSearch emptyStore true "q" PyVal.none PyVal.none
      PyVal.none).2.results = PyVal.dict [] ∧
    (addSearch emptyStore true "q" PyVal.none PyVal.none
      PyVal.none).2.settings = PyVal.dict [] :=
  ⟨(addSearch_none_normalization emptyStore "q" PyVal.none PyVal.none
      PyVal.none).1 rfl,
   (addSearch_none_normalization emptyStore "q" PyVal.none PyVal.none
      PyVal.none).2.1 rfl⟩

/-- Claim C6 counterexample: `None` is JSON-serializable (`json.dumps(None)`
succeeds, so `serializable` holds of it), yet `add_search` does not persist
it unchanged: the persisted field is the empty dict, not `None`. This
refutes the clause "JSON-serializable values are persisted unchanged" at
the concrete input `results = None`. -/
theorem addSearch_none_not_unchanged :
    serializable PyVal.none = true ∧
    (addSearch emptyStore true "q" PyVal.none PyVal.none
      (PyVal.dict [])).2.results ≠ PyVal.none ∧
    (addSearch emptyStore true "q" PyVal.none PyVal.none
      (PyVal.dict [])).2.results = PyVal.dict [] := by
  refine ⟨rfl, ?_, rfl⟩
  simp [addSearch, ensureJsonSerializable]

/-- Claim C6 (amended): a non-JSON-serializable results or settings value
does not fail the write: it is replaced by its best-effort string
representation, the record is committed with the next id, and
`get_search_by_id` round-trips the stored record; JSON-serializable values
other than `None` are persisted unchanged (`None` is normalized to the
empty mapping). -/
theorem addSearch_serialization_fallback (st : Store) (q : String)
    (c r s : PyVal) (hwf : st.WF) :
    (serializable r = false →
      (addSearch st true q c r s).2.results = PyVal.str (pyStr r)) ∧
    (serializable s = false →
      (addSearch st true q c r s).2.settings = PyVal.str (pyStr s)) ∧
    (r ≠ PyVal.none → serializable r = true →
      (addSearch st true q c r s).2.results = r) ∧
    (s ≠ PyVal.none → serializable s = true →
      (addSearch st true q c r s).2.settings = s) ∧
    (addSearch st true q c r s).2.id = some st.nextId ∧
    getSearchById (addSearch st true q c r s).1
      (IdArg.int (st.nextId : Int)) = some (addSearch st true q c r s).2 := by
  obtain ⟨hbound, _⟩ := hwf
  refine ⟨?_, ?_, ?_, ?_, ?_, ?_⟩
  · intro hser
    simpa [addSearch] using ensureJsonSerializable_not_serializable r hser
  · intro hser
    simpa [addSearch] using ensureJsonSerializable_not_serializable s hser
  · intro hne hser
    simpa [addSearch] using ensureJsonSerializable_serializable r hne hser
  · intro hne hser
    simpa [addSearch] using ensureJsonSerializable_serializable s hne hser
  · simp [addSearch]
  · have hpre : st.rows.find? (rowHasId (st.nextId : Int)) = Option.none := by
      rw [List.find?_eq_none]
      intro r2 hr2 hmatch
      obtain ⟨m, hid, hlt⟩ := hbound r2 hr2
      unfold rowHasId at hmatch
      rw [hid] at hmatch
      simp only [beq_iff_eq] at hmatch
      omega
    simp [addSearch, getSearchById, idToInt, List.find?_append, hpre, rowHasId]

theorem addSearch_serialization_fallback_witness :
    (addSearch emptyStore true "q" PyVal.none (PyVal.obj "X")
      (PyVal.dict [("a", PyVal.int 1)])).2.results =
        PyVal.str (pyStr (PyVal.obj "X")) ∧
    (addSearch emptyStore true "q" PyVal.none (PyVal.obj "X")
      (PyVal.dict [("a", PyVal.int 1)])).2.settings =
        PyVal.dict [("a", PyVal.int 1)] ∧
    (addSearch emptyStore true "q" PyVal.none (PyVal.obj "X")
      (PyVal.dict [("a", PyVal.int 1)])).2.id = some 1 ∧
    getSearchById (addSearch emptyStore true "q" PyVal.none (PyVal.obj "X")
      (PyVal.dict [("a", PyVal.int 1)])).1 (IdArg.int 1) =
      some (addSearch emptyStore true "q" PyVal.none (PyVal.obj "X")
        (PyVal.dict [("a", PyVal.int 1)])).2 := by
  have hwf : emptyStore.WF := ⟨by simp [emptyStore], by simp [emptyStore]⟩
  have h := addSearch_serialization_fallback emptyStore "q" PyVal.none
    (PyVal.obj "X") (PyVal.dict [("a", PyVal.int 1)]) hwf
  exact ⟨h.1 rfl, h.2.2.2.1 (by simp) rfl, h.2.2.2.2.1, h.2.2.2.2.2⟩

/-- Claim C1 is refuted by the code: `SearchManager.add_search` performs no
sanitization, so a settings mapping containing the denylisted credential
keys is persisted with all of them intact, and `get_search_by_id` on the
created record still shows them. (The sibling module src/src/models.py
strips exactly these keys, and the specification requires it, so this is a
bug in the code path the application actually uses.) -/
theorem addSearch_persists_credentials :
    dictHasKey (addSearch emptyStore true "weather" PyVal.none
      (PyVal.dict []) credSettings).2.settings "google_search_api_key" = true ∧
    dictHasKey (addSearch emptyStore true "weather" PyVal.none
      (PyVal.dict []) credSettings).2.settings "custom_search_engine_id" = true ∧
    dictHasKey (addSearch emptyStore true "weather" PyVal.none
      (PyVal.dict []) credSettings).2.settings "bing_api_key" = true ∧
    (getSearchById (addSearch emptyStore true "weather" PyVal.none
        (PyVal.dict []) credSettings).1 (IdArg.int 1)).map
      (fun rec => dictHasKey rec.settings "google_search_api_key") =
      some true := by
  refine ⟨rfl, rfl, rfl, rfl⟩

/-- Claim C8: `delete_search` returns true exactly when a record with the
requested id exists (given a well-formed store and a successful commit);
returning false leaves the store unchanged; and deleting the same id again
right after a successful delete returns false. -/
theorem deleteSearch_idempotent (st : Store) (sid : IdArg) (hwf : st.WF) :
    ((deleteSearch st true sid).2 = true ↔
      ∃ n, idToInt sid = some n ∧ ∃ r ∈ st.rows, rowHasId n r = true) ∧
    ((deleteSearch st true sid).2 = false → (deleteSearch st true sid).1 = st) ∧
    ((deleteSearch st true sid).2 = true →
      (deleteSearch (deleteSearch st true sid).1 true sid).2 = false) := by
  obtain ⟨hbound, hpw⟩ := hwf
  cases hparse : idToInt sid with
  | none =>
    refine ⟨?_, ?_, ?_⟩
    · constructor
      · intro h
        simp [deleteSearch, hparse] at h
      · rintro ⟨n, hn, _⟩
        cases hn
    · intro _
      simp [deleteSearch, hparse]
    · intro h
      simp [deleteSearch, hparse] at h
  | some n =>
    cases hfind : st.rows.find? (rowHasId n) with
    | none =>
      refine ⟨?_, ?_, ?_⟩
      · constructor
        · intro h
          simp [deleteSearch, hparse, hfind] at h
        · rintro ⟨n2, hn2, r, hr, hmatch⟩
          cases hn2
          have := List.find?_eq_none.mp hfind r hr
          rw [hmatch] at this
          cases this rfl
      · intro _
        simp [deleteSearch, hparse, hfind]
      · intro h
        simp [deleteSearch, hparse, hfind] at h
    | some r0 =>
      refine ⟨?_, ?_, ?_⟩
      · constructor
        · intro _
          exact ⟨n, rfl, r0, List.mem_of_find?_eq_some hfind,
            List.find?_some hfind⟩
        · intro _
          simp [deleteSearch, hparse, hfind]
      · intro h
        simp [deleteSearch, hparse, hfind] at h
      · intro _
        have herase := find?_eraseFirst_pairwise n st.rows hpw
        simp [deleteSearch, hparse, hfind, herase]

theorem deleteSearch_idempotent_witness :
    (deleteSearch storeOne true (IdArg.int 1)).2 = true ∧
    (deleteSearch (deleteSearch storeOne true (IdArg.int 1)).1 true
      (IdArg.int 1)).2 = false ∧
    (deleteSearch emptyStore true (IdArg.int 1)).2 = false ∧
    (deleteSearch emptyStore true (IdArg.int 1)).1 = emptyStore := by
  have hwf : storeOne.WF := by
    constructor
    · intro r hr
      simp only [storeOne, List.mem_singleton] at hr
      subst hr
      exact ⟨1, rfl, by simp [storeOne]⟩
    · simp [storeOne]
  have h := deleteSearch_idempotent storeOne (IdArg.int 1) hwf
  have b1 : (deleteSearch storeOne true (IdArg.int 1)).2 = true :=
    h.1.mpr ⟨1, rfl, row1, by simp [storeOne], rfl⟩
  exact ⟨b1, h.2.2 b1, rfl, rfl⟩
